import Mathlib

/-!
# Application core of the Polastri engine (`src/Application.cpp`)

A shallow embedding of `PT::Application`: the constructor guard, the main loop
`Run`, the event router `OnEvent` and the two core handlers `OnWindowClose` and
`OnWindowResize`.

Conventions of the embedding.

* The memory outside the `Application` object (layer data, window, GPU and
  debug-UI backend state) is an abstract world `σ`.  Layer hooks and
  collaborator calls are arbitrary functions on `σ`.  The members
  `m_Running`, `m_Minimized` and `m_LayerStack` are private to `Application`,
  so hooks do not write them.
* Every call that `Application` makes to a layer hook or to a collaborator is
  appended to a log, which is how call order is observed.
* A layer hook either returns or leaves by a C++ exception; the source has no
  `try` block, so an exception unwinds through `OnEvent` and `Run`.
* `unsigned int` widths and heights are natural numbers; the code only
  compares them with zero.
-/

namespace PT

/-! ## Events -/

/-- Runtime type tag of an event, the value `GetEventType()` returns. -/
inductive EventType where
  | WindowClose
  | WindowResize
  | Other (tag : Nat)
deriving DecidableEq, Repr

/-- Concrete kind of an event with its payload.  `Other` stands for the key and
mouse kinds, which `Application.cpp` never inspects. -/
inductive EventKind where
  | WindowClose
  | WindowResize (width height : Nat)
  | Other (tag : Nat)
deriving DecidableEq, Repr

/-- An `Event&`: the immutable kind and payload, and the public mutable
`Handled` field read at line 165. -/
structure Event where
  kind : EventKind
  Handled : Bool
deriving DecidableEq, Repr

/-- Type tag of an event. -/
def Event.GetEventType (e : Event) : EventType :=
  match e.kind with
  | .WindowClose => .WindowClose
  | .WindowResize _ _ => .WindowResize
  | .Other t => .Other t

/-- Width carried by a `WindowResizeEvent` (zero for the other kinds, on which
the accessor does not exist). -/
def Event.GetWidth (e : Event) : Nat :=
  match e.kind with
  | .WindowResize w _ => w
  | _ => 0

/-- Height carried by a `WindowResizeEvent`. -/
def Event.GetHeight (e : Event) : Nat :=
  match e.kind with
  | .WindowResize _ h => h
  | _ => 0

/-! ## Calls made by the application -/

/-- One call issued by `Application` to a layer hook or a collaborator. -/
inductive Call where
  | RenderCommand_SetClearColor
  | RenderCommand_Clear
  | Shader_Bind (blue : Bool)
  | Shader_UploadUniformMat4 (blue : Bool)
  | Renderer_Submit (square : Bool)
  | Renderer_OnWindowResize (width height : Nat)
  | Layer_OnUpdate (name : String)
  | ImGuiLayer_Begin
  | Layer_OnImGuiRender (name : String)
  | ImGuiLayer_End
  | Window_OnUpdate
  | Layer_OnEvent (name : String)
deriving DecidableEq, Repr

/-- How a call into a layer ended: it returned, or a C++ exception left it.
Either way `val` is the state at that moment. -/
inductive Outcome (α : Type) where
  | returned (val : α)
  | threw (val : α)

/-- State carried by an outcome. -/
def Outcome.val {α : Type} : Outcome α → α
  | .returned a => a
  | .threw a => a

/-- True when the call returned. -/
def Outcome.isReturned {α : Type} : Outcome α → Bool
  | .returned _ => true
  | .threw _ => false

/-! ## Layers and the layer stack -/

/-- A `Layer*`: its diagnostic name and the three hooks `Application.cpp`
calls.  `OnEvent` receives the event by reference and may rewrite `Handled`;
the first component of its result is the flag it leaves. -/
structure Layer (σ : Type) where
  name : String
  OnUpdate : σ → Outcome σ
  OnImGuiRender : σ → Outcome σ
  OnEvent : Event → σ → Outcome (Bool × σ)

/-- Modelled from the spec: the `LayerStack` class (declared outside
`Application.cpp`).  An ordered sequence of layers, regular layers in the front
region and overlays in the back region, with the boundary index between
them. -/
structure LayerStack (σ : Type) where
  m_Layers : List (Layer σ)
  m_LayerInsertIndex : Nat

/-- Modelled from the spec: the empty `LayerStack`. -/
def LayerStack.empty {σ : Type} : LayerStack σ :=
  { m_Layers := [], m_LayerInsertIndex := 0 }

/-- Modelled from the spec: `LayerStack::PushLayer` inserts at the boundary
between the regions and advances the boundary index. -/
def LayerStack.PushLayer {σ : Type} (s : LayerStack σ) (layer : Layer σ) : LayerStack σ :=
  { m_Layers := s.m_Layers.take s.m_LayerInsertIndex ++ layer :: s.m_Layers.drop s.m_LayerInsertIndex
    m_LayerInsertIndex := s.m_LayerInsertIndex + 1 }

/-- Modelled from the spec: `LayerStack::PushOverlay` appends at the absolute
end. -/
def LayerStack.PushOverlay {σ : Type} (s : LayerStack σ) (overlay : Layer σ) : LayerStack σ :=
  { m_Layers := s.m_Layers ++ [overlay]
    m_LayerInsertIndex := s.m_LayerInsertIndex }

/-- Modelled from the spec: forward iteration (`begin()` to `end()`) of the
`LayerStack`, the order of insertion. -/
def LayerStack.forward {σ : Type} (s : LayerStack σ) : List (Layer σ) :=
  s.m_Layers

/-- Modelled from the spec: reverse iteration (`rbegin()` to `rend()`) of the
`LayerStack`. -/
def LayerStack.backward {σ : Type} (s : LayerStack σ) : List (Layer σ) :=
  s.m_Layers.reverse

/-! ## The application object -/

/-- The members of `Application` that the loop and the router read or write. -/
structure Application (σ : Type) where
  m_Running : Bool
  m_Minimized : Bool
  m_LayerStack : LayerStack σ

/-- Whole state: the application object, the world outside it, and the log of
calls issued so far. -/
structure Machine (σ : Type) where
  app : Application σ
  world : σ
  log : List Call

/-- `Application::PushLayer` (lines 171-174). -/
def Application.PushLayer {σ : Type} (app : Application σ) (layer : Layer σ) : Application σ :=
  { app with m_LayerStack := app.m_LayerStack.PushLayer layer }

/-- `Application::PushOverlay` (lines 176-179). -/
def Application.PushOverlay {σ : Type} (app : Application σ) (layer : Layer σ) : Application σ :=
  { app with m_LayerStack := app.m_LayerStack.PushOverlay layer }

/-- One setup call on the application. -/
inductive PushOp (σ : Type) where
  | layer (l : Layer σ)
  | overlay (l : Layer σ)

/-- Perform one setup call. -/
def Application.push {σ : Type} (app : Application σ) : PushOp σ → Application σ
  | .layer l => app.PushLayer l
  | .overlay l => app.PushOverlay l

/-- Perform a sequence of setup calls, first to last. -/
def Application.pushAll {σ : Type} (app : Application σ) (ops : List (PushOp σ)) : Application σ :=
  ops.foldl Application.push app

/-- Regular layers of a sequence of setup calls, in push order. -/
def regularLayers {σ : Type} : List (PushOp σ) → List (Layer σ)
  | [] => []
  | .layer l :: ops => l :: regularLayers ops
  | .overlay _ :: ops => regularLayers ops

/-- Overlays of a sequence of setup calls, in push order. -/
def overlayLayers {σ : Type} : List (PushOp σ) → List (Layer σ)
  | [] => []
  | .layer _ :: ops => overlayLayers ops
  | .overlay l :: ops => l :: overlayLayers ops

/-- An application whose stack is still empty. -/
def Application.fresh {σ : Type} (running minimized : Bool) : Application σ :=
  { m_Running := running, m_Minimized := minimized, m_LayerStack := LayerStack.empty }

/-! ## Event routing -/

/-- Modelled from the spec: `EventDispatcher::Dispatch<T>` (declared outside
`Application.cpp`).  When the bound event has runtime type `T` the handler
runs, its result is stored into `Handled`, and the call yields true; otherwise
the call yields false and nothing changes. -/
def Dispatch {α : Type} (T : EventType) (func : Event → α → Bool × α) (e : Event) (a : α) :
    Bool × Event × α :=
  if e.GetEventType = T then
    let r := func e a
    (true, { e with Handled := r.1 }, r.2)
  else
    (false, e, a)

/-- `Application::OnWindowClose` (lines 181-185). -/
def Application.OnWindowClose {σ : Type} (_e : Event) (m : Machine σ) : Bool × Machine σ :=
  (true, { m with app := { m.app with m_Running := false } })

/-- `Application::OnWindowResize` (lines 187-199).  The renderer notification
at line 196 is commented out in the source, so no call is issued. -/
def Application.OnWindowResize {σ : Type} (e : Event) (m : Machine σ) : Bool × Machine σ :=
  if e.GetWidth == 0 || e.GetHeight == 0 then
    (false, { m with app := { m.app with m_Minimized := true } })
  else
    (false, { m with app := { m.app with m_Minimized := false } })

/-- Lines 159-161 of `Application::OnEvent`: the two core dispatch calls, whose
boolean results are discarded. -/
def Application.coreDispatch {σ : Type} (e : Event) (m : Machine σ) : Event × Machine σ :=
  let r1 := Dispatch EventType.WindowClose Application.OnWindowClose e m
  let r2 := Dispatch EventType.WindowResize Application.OnWindowResize r1.2.1 r1.2.2
  r2.2

/-- Lines 163-168 of `Application::OnEvent`: the loop over the reverse
iteration.  Each step first tests `e.Handled` and breaks when it is set,
otherwise calls the layer; an exception leaves the loop at once. -/
def Application.offerLayers {σ : Type} : List (Layer σ) → Event → Machine σ →
    Outcome (Event × Machine σ)
  | [], e, m => .returned (e, m)
  | l :: ls, e, m =>
    if e.Handled then .returned (e, m)
    else
      match l.OnEvent e m.world with
      | .returned r =>
        Application.offerLayers ls { e with Handled := r.1 }
          { m with world := r.2, log := m.log ++ [Call.Layer_OnEvent l.name] }
      | .threw r =>
        .threw ({ e with Handled := r.1 },
          { m with world := r.2, log := m.log ++ [Call.Layer_OnEvent l.name] })

/-- `Application::OnEvent` (lines 157-169). -/
def Application.OnEvent {σ : Type} (e : Event) (m : Machine σ) : Outcome (Event × Machine σ) :=
  let r := Application.coreDispatch e m
  Application.offerLayers r.2.app.m_LayerStack.backward r.1 r.2

/-- Reference for the shortest-run property of the router: offer an event of
the given kind to every layer of the list in turn, with no test of the flag.
The state is the `Handled` flag and the world. -/
def offerUnconditionally {σ : Type} (kind : EventKind) : List (Layer σ) → Bool × σ → Bool × σ
  | [], s => s
  | l :: ls, s => offerUnconditionally kind ls (l.OnEvent { kind := kind, Handled := s.1 } s.2).val

/-! ## The main loop -/

/-- The collaborators of the loop.  `effect c` is what the collaborator call
`c` does to the world; `pollEvents` lists the events that the window pump
hands to the event callback during one `Window::OnUpdate`, read off the world
on entry. -/
structure Collaborators (σ : Type) where
  effect : Call → σ → σ
  pollEvents : σ → List Event

/-- Issue one collaborator call. -/
def Machine.call {σ : Type} (P : Collaborators σ) (c : Call) (m : Machine σ) : Machine σ :=
  { m with world := P.effect c m.world, log := m.log ++ [c] }

/-- Calls of lines 130-139, in source order. -/
def frameStartCalls : List Call :=
  [ Call.RenderCommand_SetClearColor, Call.RenderCommand_Clear,
    Call.Shader_Bind true, Call.Shader_UploadUniformMat4 true, Call.Renderer_Submit true,
    Call.Shader_Bind false, Call.Shader_UploadUniformMat4 false, Call.Renderer_Submit false ]

/-- Lines 130-139 of `Run`: clear, then submit the square and the triangle. -/
def Application.frameStart {σ : Type} (P : Collaborators σ) (m : Machine σ) : Machine σ :=
  frameStartCalls.foldl (fun acc c => acc.call P c) m

/-- Lines 141-144 of `Run`: the range-for calling `OnUpdate`. -/
def Application.updateLayers {σ : Type} : List (Layer σ) → Machine σ → Outcome (Machine σ)
  | [], m => .returned m
  | l :: ls, m =>
    match l.OnUpdate m.world with
    | .returned w =>
      Application.updateLayers ls { m with world := w, log := m.log ++ [Call.Layer_OnUpdate l.name] }
    | .threw w => .threw { m with world := w, log := m.log ++ [Call.Layer_OnUpdate l.name] }

/-- Lines 147-150 of `Run`: the range-for calling `OnImGuiRender`. -/
def Application.renderLayers {σ : Type} : List (Layer σ) → Machine σ → Outcome (Machine σ)
  | [], m => .returned m
  | l :: ls, m =>
    match l.OnImGuiRender m.world with
    | .returned w =>
      Application.renderLayers ls
        { m with world := w, log := m.log ++ [Call.Layer_OnImGuiRender l.name] }
    | .threw w => .threw { m with world := w, log := m.log ++ [Call.Layer_OnImGuiRender l.name] }

/-- The event callback bound at line 18, run on each pumped event in turn. -/
def Application.deliver {σ : Type} : List Event → Machine σ → Outcome (Machine σ)
  | [], m => .returned m
  | e :: es, m =>
    match Application.OnEvent e m with
    | .returned r => Application.deliver es r.2
    | .threw r => .threw r.2

/-- Line 153 of `Run`: `m_Window->OnUpdate()`, which pumps the platform events
into the event callback. -/
def Application.windowOnUpdate {σ : Type} (P : Collaborators σ) (m : Machine σ) :
    Outcome (Machine σ) :=
  Application.deliver (P.pollEvents m.world) (m.call P Call.Window_OnUpdate)

/-- Body of the `while` loop of `Application::Run` (lines 130-153). -/
def Application.RunBody {σ : Type} (P : Collaborators σ) (m : Machine σ) : Outcome (Machine σ) :=
  let m1 := Application.frameStart P m
  match Application.updateLayers m1.app.m_LayerStack.forward m1 with
  | .threw m2 => .threw m2
  | .returned m2 =>
    let m3 := m2.call P Call.ImGuiLayer_Begin
    match Application.renderLayers m3.app.m_LayerStack.forward m3 with
    | .threw m4 => .threw m4
    | .returned m4 =>
      let m5 := m4.call P Call.ImGuiLayer_End
      Application.windowOnUpdate P m5

/-- `Application::Run` (lines 126-155) with a bound on the number of
iterations; `none` means the loop is still running when the bound is
reached. -/
def Application.Run {σ : Type} (P : Collaborators σ) : Nat → Machine σ → Option (Outcome (Machine σ))
  | 0, m => if m.app.m_Running then none else some (.returned m)
  | fuel + 1, m =>
    if m.app.m_Running then
      match Application.RunBody P m with
      | .threw m1 => some (.threw m1)
      | .returned m1 => Application.Run P fuel m1
    else some (.returned m)

/-! ## Construction -/

/-- Process-wide state seen by the constructor: the static `s_Instance` (the
address of the registered instance, if any), the messages reported so far, the
number of windows created, and whether the process has been terminated. -/
structure Process where
  s_Instance : Option Nat
  reports : List String
  windows : Nat
  terminated : Bool
deriving DecidableEq, Repr

/-- Modelled from the spec: the `PT_ERROR` macro (defined outside
`Application.cpp`).  The spec makes the double construction a fatal error that
is reported and terminates the process, so the macro records the message and
terminates. -/
def PT_ERROR (msg : String) (p : Process) : Process :=
  { p with reports := p.reports ++ [msg], terminated := true }

/-- A reporting routine that records the message and returns to its caller. -/
def logAndReturn (msg : String) (p : Process) : Process :=
  { p with reports := p.reports ++ [msg] }

/-- `Application::Application` (lines 11-20) for the object at address `self`,
with the reporting routine of line 15 as a parameter.  The guard has no
`return` or `else`: control reaches line 16 whenever the report comes back.
The object starts running and not minimized, and the stack receives the debug
overlay.  Lines 22-119 create demo GPU resources only. -/
def Application.construct {σ : Type} (report : String → Process → Process) (self : Nat)
    (imGuiLayer : Layer σ) (p : Process) : Process × Option (Application σ) :=
  let p1 := if p.s_Instance.isSome then report "Application already initialized" p else p
  if p1.terminated then (p1, none)
  else
    ({ p1 with s_Instance := some self, windows := p1.windows + 1 },
      some ((Application.fresh true false).PushOverlay imGuiLayer))

/-! ## Concrete scenarios -/

/-- A layer over the trivial world whose hooks all return and whose `OnEvent`
leaves the given flag. -/
def sampleLayer (name : String) (handles : Bool) : Layer Unit :=
  { name := name
    OnUpdate := fun s => .returned s
    OnImGuiRender := fun s => .returned s
    OnEvent := fun _ s => .returned (handles, s) }

/-- A layer whose debug-UI hook throws. -/
def throwingLayer (name : String) : Layer Unit :=
  { name := name
    OnUpdate := fun s => .returned s
    OnImGuiRender := fun s => .threw s
    OnEvent := fun _ s => .returned (false, s) }

/-- Collaborators with no effect on the trivial world and no pending event. -/
def quietCollaborators : Collaborators Unit :=
  { effect := fun _ s => s
    pollEvents := fun _ => [] }

/-- Collaborators whose window pump delivers one key event per frame. -/
def keyCollaborators : Collaborators Unit :=
  { effect := fun _ s => s
    pollEvents := fun _ => [{ kind := EventKind.Other 7, Handled := false }] }

/-- Regular layer A pushed first, overlay B pushed second, both handling every
event. -/
def scenarioAB : List (PushOp Unit) :=
  [PushOp.layer (sampleLayer "A" true), PushOp.overlay (sampleLayer "B" true)]

/-- A running application with no layer, nothing logged. -/
def bareMachine : Machine Unit :=
  { app := Application.fresh true false, world := (), log := [] }

/-- A running application holding regular layer A and overlay B. -/
def machineAB : Machine Unit :=
  { app := (Application.fresh true false).pushAll scenarioAB, world := (), log := [] }

/-- A running application holding one layer whose debug-UI hook throws, below
a well-behaved overlay. -/
def machineThrowing : Machine Unit :=
  { app := (Application.fresh true false).pushAll
      [PushOp.layer (throwingLayer "T"), PushOp.overlay (sampleLayer "B" true)]
    world := ()
    log := [] }

/-- A process in which the instance at address 1 is registered and one window
exists. -/
def processWithInstance : Process :=
  { s_Instance := some 1, reports := [], windows := 1, terminated := false }

/-! ## Core dispatch -/

/-- A dispatch call whose type does not match the event does nothing. -/
theorem Dispatch_mismatch {α : Type} (T : EventType) (func : Event → α → Bool × α) (e : Event)
    (a : α) (h : e.GetEventType ≠ T) : Dispatch T func e a = (false, e, a) := by
  simp [Dispatch, h]

/-- Core dispatch of a close event: the flag is set, the loop is told to stop. -/
theorem coreDispatch_close {σ : Type} (hd : Bool) (m : Machine σ) :
    Application.coreDispatch { kind := EventKind.WindowClose, Handled := hd } m =
      ({ kind := EventKind.WindowClose, Handled := true },
        { m with app := { m.app with m_Running := false } }) := by
  rfl

/-- Core dispatch of a resize event: the flag is cleared, `m_Minimized` records
whether the area is empty; world and log are untouched. -/
theorem coreDispatch_resize {σ : Type} (w h : Nat) (hd : Bool) (m : Machine σ) :
    Application.coreDispatch { kind := EventKind.WindowResize w h, Handled := hd } m =
      ({ kind := EventKind.WindowResize w h, Handled := false },
        { m with app := { m.app with m_Minimized := (w == 0 || h == 0) } }) := by
  by_cases hz : (w == 0 || h == 0) = true
  · simp [Application.coreDispatch, Dispatch, Event.GetEventType, Application.OnWindowResize,
      Event.GetWidth, Event.GetHeight, hz]
  · simp [Application.coreDispatch, Dispatch, Event.GetEventType, Application.OnWindowResize,
      Event.GetWidth, Event.GetHeight, hz]

/-- Core dispatch of any other event changes nothing. -/
theorem coreDispatch_other {σ : Type} (t : Nat) (hd : Bool) (m : Machine σ) :
    Application.coreDispatch { kind := EventKind.Other t, Handled := hd } m =
      ({ kind := EventKind.Other t, Handled := hd }, m) := by
  rfl

/-- Core dispatch never touches the layer stack, the world or the log, and
keeps the kind of the event. -/
theorem coreDispatch_frame {σ : Type} (e : Event) (m : Machine σ) :
    (Application.coreDispatch e m).2.app.m_LayerStack = m.app.m_LayerStack ∧
    (Application.coreDispatch e m).2.world = m.world ∧
    (Application.coreDispatch e m).2.log = m.log ∧
    (Application.coreDispatch e m).1.kind = e.kind := by
  obtain ⟨k, hd⟩ := e
  cases k with
  | WindowClose => simp [coreDispatch_close]
  | WindowResize w h => simp [coreDispatch_resize]
  | Other t => simp [coreDispatch_other]

/-- The layer loop breaks at once on an event that is already handled. -/
theorem offerLayers_handled {σ : Type} (ls : List (Layer σ)) (e : Event) (m : Machine σ)
    (h : e.Handled = true) : Application.offerLayers ls e m = .returned (e, m) := by
  cases ls with
  | nil => rfl
  | cons l ls => simp [Application.offerLayers, h]

/-- The layer loop never writes the application object. -/
theorem offerLayers_app {σ : Type} (ls : List (Layer σ)) (e : Event) (m : Machine σ) :
    (Application.offerLayers ls e m).val.2.app = m.app := by
  induction ls generalizing e m with
  | nil => rfl
  | cons l ls ih =>
    unfold Application.offerLayers
    by_cases h : e.Handled = true
    · simp [h, Outcome.val]
    · simp only [h]
      cases hl : l.OnEvent e m.world with
      | returned r => simp [ih]
      | threw r => simp [Outcome.val]

/-! ## Shape of the layer stack -/

/-- Pushing keeps the two regions apart: regular layers join the front region,
overlays the back region, each in push order. -/
theorem pushAll_layers {σ : Type} (ops : List (PushOp σ)) (app : Application σ)
    (R O : List (Layer σ)) (hL : app.m_LayerStack.m_Layers = R ++ O)
    (hI : app.m_LayerStack.m_LayerInsertIndex = R.length) :
    (app.pushAll ops).m_LayerStack.m_Layers =
        (R ++ regularLayers ops) ++ (O ++ overlayLayers ops) ∧
      (app.pushAll ops).m_Running = app.m_Running ∧
      (app.pushAll ops).m_Minimized = app.m_Minimized := by
  induction ops generalizing app R O with
  | nil => simp [Application.pushAll, regularLayers, overlayLayers, hL]
  | cons op ops ih =>
    cases op with
    | layer l =>
      have h1 : (app.push (PushOp.layer l)).m_LayerStack.m_Layers = (R ++ [l]) ++ O := by
        simp [Application.push, Application.PushLayer, LayerStack.PushLayer, hL, hI]
      have h2 : (app.push (PushOp.layer l)).m_LayerStack.m_LayerInsertIndex
          = (R ++ [l]).length := by
        simp [Application.push, Application.PushLayer, LayerStack.PushLayer, hI]
      have h := ih (app.push (PushOp.layer l)) (R ++ [l]) O h1 h2
      simpa [Application.pushAll, regularLayers, overlayLayers, Application.push,
        Application.PushLayer] using h
    | overlay l =>
      have h1 : (app.push (PushOp.overlay l)).m_LayerStack.m_Layers = R ++ (O ++ [l]) := by
        simp [Application.push, Application.PushOverlay, LayerStack.PushOverlay, hL]
      have h2 : (app.push (PushOp.overlay l)).m_LayerStack.m_LayerInsertIndex = R.length := by
        simp [Application.push, Application.PushOverlay, LayerStack.PushOverlay, hI]
      have h := ih (app.push (PushOp.overlay l)) R (O ++ [l]) h1 h2
      simpa [Application.pushAll, regularLayers, overlayLayers, Application.push,
        Application.PushOverlay] using h

/-- Forward iteration of a stack built by pushes: regular layers in push order,
then overlays in push order. -/
theorem forward_pushAll {σ : Type} (ops : List (PushOp σ)) (running minimized : Bool) :
    ((Application.fresh running minimized).pushAll ops).m_LayerStack.forward =
      regularLayers ops ++ overlayLayers ops := by
  have h := pushAll_layers ops (Application.fresh running minimized) [] [] rfl rfl
  simpa [LayerStack.forward] using h.1

/-- Reverse iteration of a stack built by pushes: overlays last-pushed first,
then regular layers last-pushed first. -/
theorem backward_pushAll {σ : Type} (ops : List (PushOp σ)) (running minimized : Bool) :
    ((Application.fresh running minimized).pushAll ops).m_LayerStack.backward =
      (overlayLayers ops).reverse ++ (regularLayers ops).reverse := by
  have h := pushAll_layers ops (Application.fresh running minimized) [] [] rfl rfl
  simp only [List.nil_append] at h
  simp [LayerStack.backward, h.1]

/-! ## The layer loop of the router -/

/-- The layer loop calls exactly the first `n` layers of its list, where `n`
is the least count after which the flag is set (or an exception left), and its
final flag and world are those of offering the event to these `n` layers. -/
theorem offerLayers_shortest {σ : Type} (ls : List (Layer σ)) (e : Event) (m : Machine σ) :
    ∃ n, n ≤ ls.length ∧
      (Application.offerLayers ls e m).val.2.log =
        m.log ++ (ls.take n).map (fun l => Call.Layer_OnEvent l.name) ∧
      ((Application.offerLayers ls e m).val.1.Handled,
          (Application.offerLayers ls e m).val.2.world) =
        offerUnconditionally e.kind (ls.take n) (e.Handled, m.world) ∧
      (Application.offerLayers ls e m).val.1.kind = e.kind ∧
      (∀ k, k < n → (offerUnconditionally e.kind (ls.take k) (e.Handled, m.world)).1 = false) ∧
      ((Application.offerLayers ls e m).isReturned = true →
        n = ls.length ∨ (Application.offerLayers ls e m).val.1.Handled = true) := by
  induction ls generalizing e m with
  | nil =>
    exact ⟨0, le_refl _, by simp [Application.offerLayers, Outcome.val],
      by simp [Application.offerLayers, Outcome.val, offerUnconditionally],
      rfl, by intro k hk; omega, by intro _; left; rfl⟩
  | cons l ls ih =>
    by_cases h : e.Handled = true
    · rw [offerLayers_handled _ _ _ h]
      exact ⟨0, Nat.zero_le _, by simp [Outcome.val],
        by simp [Outcome.val, offerUnconditionally], rfl, by intro k hk; omega,
        by intro _; right; exact h⟩
    · have hf : e.Handled = false := by simpa using h
      cases hl : l.OnEvent e m.world with
      | returned r =>
        have hstep : Application.offerLayers (l :: ls) e m =
            Application.offerLayers ls { e with Handled := r.1 }
              { m with world := r.2, log := m.log ++ [Call.Layer_OnEvent l.name] } := by
          simp [Application.offerLayers, hf, hl]
        obtain ⟨n, hn, hlog, hst, hk, hall, hend⟩ := ih { e with Handled := r.1 }
          { m with world := r.2, log := m.log ++ [Call.Layer_OnEvent l.name] }
        have hev : ({ kind := e.kind, Handled := e.Handled } : Event) = e := rfl
        refine ⟨n + 1, by simpa using hn, ?_, ?_, ?_, ?_, ?_⟩
        · rw [hstep, hlog]; simp
        · rw [hstep, hst]; simp [offerUnconditionally, hev, hl, Outcome.val]
        · rw [hstep, hk]
        · intro k hk1
          cases k with
          | zero => simpa [offerUnconditionally] using hf
          | succ j =>
            have := hall j (by omega)
            simpa [offerUnconditionally, hev, hl, Outcome.val] using this
        · rw [hstep]; intro hr
          rcases hend hr with h1 | h1
          · left; simp [h1]
          · right; exact h1
      | threw r =>
        have hstep : Application.offerLayers (l :: ls) e m =
            .threw ({ e with Handled := r.1 },
              { m with world := r.2, log := m.log ++ [Call.Layer_OnEvent l.name] }) := by
          simp [Application.offerLayers, hf, hl]
        have hev : ({ kind := e.kind, Handled := e.Handled } : Event) = e := rfl
        refine ⟨1, by simp, ?_, ?_, ?_, ?_, ?_⟩
        · rw [hstep]; simp [Outcome.val]
        · rw [hstep]; simp [Outcome.val, offerUnconditionally, hev, hl]
        · rw [hstep]; rfl
        · intro k hk1
          have : k = 0 := by omega
          subst this
          simpa [offerUnconditionally] using hf
        · rw [hstep]; intro hr; simp [Outcome.isReturned] at hr

/-- With the flag clear, the layer loop calls the first layer of its list. -/
theorem offerLayers_first {σ : Type} (l : Layer σ) (ls : List (Layer σ)) (e : Event)
    (m : Machine σ) (hf : e.Handled = false) :
    ∃ rest, (Application.offerLayers (l :: ls) e m).val.2.log =
      m.log ++ Call.Layer_OnEvent l.name :: rest := by
  cases hl : l.OnEvent e m.world with
  | returned r =>
    obtain ⟨n, -, hlog, -⟩ := offerLayers_shortest ls { e with Handled := r.1 }
      { m with world := r.2, log := m.log ++ [Call.Layer_OnEvent l.name] }
    refine ⟨(ls.take n).map (fun l => Call.Layer_OnEvent l.name), ?_⟩
    simp [Application.offerLayers, hf, hl, hlog]
  | threw r =>
    exact ⟨[], by simp [Application.offerLayers, hf, hl, Outcome.val]⟩

/-- Routing a resize event: the layer loop starts from the cleared flag and the
updated `m_Minimized`. -/
theorem OnEvent_resize {σ : Type} (w h : Nat) (hd : Bool) (m : Machine σ) :
    Application.OnEvent { kind := EventKind.WindowResize w h, Handled := hd } m =
      Application.offerLayers m.app.m_LayerStack.backward
        { kind := EventKind.WindowResize w h, Handled := false }
        { m with app := { m.app with m_Minimized := (w == 0 || h == 0) } } := by
  unfold Application.OnEvent
  rw [coreDispatch_resize]

/-- The router keeps the layer stack, changes `m_Running` only on a close
event and `m_Minimized` only on a resize event. -/
theorem OnEvent_frame {σ : Type} (e : Event) (m : Machine σ) :
    (Application.OnEvent e m).val.2.app.m_LayerStack = m.app.m_LayerStack ∧
      (e.GetEventType ≠ EventType.WindowClose →
        (Application.OnEvent e m).val.2.app.m_Running = m.app.m_Running) ∧
      (e.GetEventType ≠ EventType.WindowResize →
        (Application.OnEvent e m).val.2.app.m_Minimized = m.app.m_Minimized) := by
  unfold Application.OnEvent
  rw [offerLayers_app]
  obtain ⟨k, hd⟩ := e
  cases k with
  | WindowClose => simp [coreDispatch_close, Event.GetEventType]
  | WindowResize w h => simp [coreDispatch_resize, Event.GetEventType]
  | Other t => simp [coreDispatch_other, Event.GetEventType]

/-- The router appends only layer `OnEvent` calls to the log. -/
theorem OnEvent_log {σ : Type} (e : Event) (m : Machine σ) :
    ∃ tail, (Application.OnEvent e m).val.2.log = m.log ++ tail ∧
      ∀ c ∈ tail, ∃ name, c = Call.Layer_OnEvent name := by
  obtain ⟨n, -, hlog, -⟩ := offerLayers_shortest
    (Application.coreDispatch e m).2.app.m_LayerStack.backward
    (Application.coreDispatch e m).1 (Application.coreDispatch e m).2
  refine ⟨List.map (fun l => Call.Layer_OnEvent l.name)
    (List.take n (Application.coreDispatch e m).2.app.m_LayerStack.backward), ?_, ?_⟩
  · unfold Application.OnEvent
    rw [hlog, (coreDispatch_frame e m).2.2.1]
  · intro c hc
    simp only [List.mem_map] at hc
    obtain ⟨l, -, rfl⟩ := hc
    exact ⟨l.name, rfl⟩

/-! ## The main loop -/

/-- The frame-start calls are logged in source order and leave the application
object alone. -/
theorem frameStart_spec {σ : Type} (P : Collaborators σ) (m : Machine σ) :
    (Application.frameStart P m).log = m.log ++ frameStartCalls ∧
      (Application.frameStart P m).app = m.app := by
  simp [Application.frameStart, frameStartCalls, Machine.call]

/-- The update loop calls the first `n` layers in order; it returns exactly
when `n` is the whole list, and an exception leaves after at least one call. -/
theorem updateLayers_spec {σ : Type} (ls : List (Layer σ)) (m : Machine σ) :
    (Application.updateLayers ls m).val.app = m.app ∧
      ∃ n, n ≤ ls.length ∧
        (Application.updateLayers ls m).val.log =
          m.log ++ (ls.take n).map (fun l => Call.Layer_OnUpdate l.name) ∧
        ((Application.updateLayers ls m).isReturned = true → n = ls.length) ∧
        ((Application.updateLayers ls m).isReturned = false → 1 ≤ n) := by
  induction ls generalizing m with
  | nil =>
    exact ⟨rfl, 0, le_refl _, by simp [Application.updateLayers, Outcome.val], by simp,
      by simp [Application.updateLayers, Outcome.isReturned]⟩
  | cons l ls ih =>
    cases hl : l.OnUpdate m.world with
    | returned w =>
      have hstep : Application.updateLayers (l :: ls) m = Application.updateLayers ls
          { m with world := w, log := m.log ++ [Call.Layer_OnUpdate l.name] } := by
        simp [Application.updateLayers, hl]
      obtain ⟨ha, n, hn, hlog, hr, ht⟩ := ih
        { m with world := w, log := m.log ++ [Call.Layer_OnUpdate l.name] }
      rw [hstep]
      refine ⟨ha, n + 1, by simpa using hn, by rw [hlog]; simp, ?_, by intro _; omega⟩
      intro h
      simp [hr h]
    | threw w =>
      have hstep : Application.updateLayers (l :: ls) m =
          .threw { m with world := w, log := m.log ++ [Call.Layer_OnUpdate l.name] } := by
        simp [Application.updateLayers, hl]
      rw [hstep]
      exact ⟨rfl, 1, by simp, by simp [Outcome.val], by simp [Outcome.isReturned],
        by intro _; exact le_refl _⟩

/-- The debug-UI loop calls the first `n` layers in order; it returns exactly
when `n` is the whole list, and an exception leaves after at least one call. -/
theorem renderLayers_spec {σ : Type} (ls : List (Layer σ)) (m : Machine σ) :
    (Application.renderLayers ls m).val.app = m.app ∧
      ∃ n, n ≤ ls.length ∧
        (Application.renderLayers ls m).val.log =
          m.log ++ (ls.take n).map (fun l => Call.Layer_OnImGuiRender l.name) ∧
        ((Application.renderLayers ls m).isReturned = true → n = ls.length) ∧
        ((Application.renderLayers ls m).isReturned = false → 1 ≤ n) := by
  induction ls generalizing m with
  | nil =>
    exact ⟨rfl, 0, le_refl _, by simp [Application.renderLayers, Outcome.val], by simp,
      by simp [Application.renderLayers, Outcome.isReturned]⟩
  | cons l ls ih =>
    cases hl : l.OnImGuiRender m.world with
    | returned w =>
      have hstep : Application.renderLayers (l :: ls) m = Application.renderLayers ls
          { m with world := w, log := m.log ++ [Call.Layer_OnImGuiRender l.name] } := by
        simp [Application.renderLayers, hl]
      obtain ⟨ha, n, hn, hlog, hr, ht⟩ := ih
        { m with world := w, log := m.log ++ [Call.Layer_OnImGuiRender l.name] }
      rw [hstep]
      refine ⟨ha, n + 1, by simpa using hn, by rw [hlog]; simp, ?_, by intro _; omega⟩
      intro h
      simp [hr h]
    | threw w =>
      have hstep : Application.renderLayers (l :: ls) m =
          .threw { m with world := w, log := m.log ++ [Call.Layer_OnImGuiRender l.name] } := by
        simp [Application.renderLayers, hl]
      rw [hstep]
      exact ⟨rfl, 1, by simp, by simp [Outcome.val], by simp [Outcome.isReturned],
        by intro _; exact le_refl _⟩

/-- Delivering pumped events keeps the layer stack, appends only layer
`OnEvent` calls, and keeps `m_Running` when none of the events is a close. -/
theorem deliver_spec {σ : Type} (es : List Event) (m : Machine σ) :
    (Application.deliver es m).val.app.m_LayerStack = m.app.m_LayerStack ∧
      (∃ tail, (Application.deliver es m).val.log = m.log ++ tail ∧
        ∀ c ∈ tail, ∃ name, c = Call.Layer_OnEvent name) ∧
      ((∀ e ∈ es, e.GetEventType ≠ EventType.WindowClose) →
        (Application.deliver es m).val.app.m_Running = m.app.m_Running) := by
  induction es generalizing m with
  | nil =>
    exact ⟨rfl, ⟨[], by simp [Application.deliver, Outcome.val], by simp⟩, fun _ => rfl⟩
  | cons e es ih =>
    obtain ⟨hS, hR, -⟩ := OnEvent_frame e m
    obtain ⟨t1, hl1, ht1⟩ := OnEvent_log e m
    cases ho : Application.OnEvent e m with
    | returned r =>
      have hstep : Application.deliver (e :: es) m = Application.deliver es r.2 := by
        simp [Application.deliver, ho]
      rw [ho] at hS hR hl1
      simp only [Outcome.val] at hS hR hl1
      obtain ⟨iS, ⟨t2, hl2, ht2⟩, iR⟩ := ih r.2
      rw [hstep]
      refine ⟨by rw [iS, hS], ⟨t1 ++ t2, by rw [hl2, hl1]; simp, ?_⟩, ?_⟩
      · intro c hc
        rcases List.mem_append.mp hc with h | h
        · exact ht1 c h
        · exact ht2 c h
      · intro hall
        rw [iR (fun x hx => hall x (List.mem_cons_of_mem _ hx)),
          hR (hall e (List.mem_cons_self _ _))]
    | threw r =>
      have hstep : Application.deliver (e :: es) m = .threw r.2 := by
        simp [Application.deliver, ho]
      rw [ho] at hS hR hl1
      simp only [Outcome.val] at hS hR hl1
      rw [hstep]
      exact ⟨hS, ⟨t1, hl1, ht1⟩, fun hall => hR (hall e (List.mem_cons_self _ _))⟩

/-- The three ways one pass through the loop body can end: an exception in the
update loop, an exception in the debug-UI loop after `Begin`, or both loops
completing so that `End` and the window update follow. -/
theorem RunBody_cases {σ : Type} (P : Collaborators σ) (m : Machine σ) :
    (∃ m2, Application.updateLayers m.app.m_LayerStack.forward (Application.frameStart P m)
          = .threw m2 ∧
        Application.RunBody P m = .threw m2) ∨
      (∃ m2 m4, Application.updateLayers m.app.m_LayerStack.forward (Application.frameStart P m)
          = .returned m2 ∧
        Application.renderLayers m.app.m_LayerStack.forward (m2.call P Call.ImGuiLayer_Begin)
          = .threw m4 ∧
        Application.RunBody P m = .threw m4) ∨
      (∃ m2 m4, Application.updateLayers m.app.m_LayerStack.forward (Application.frameStart P m)
          = .returned m2 ∧
        Application.renderLayers m.app.m_LayerStack.forward (m2.call P Call.ImGuiLayer_Begin)
          = .returned m4 ∧
        Application.RunBody P m = Application.windowOnUpdate P (m4.call P Call.ImGuiLayer_End)) := by
  have hF := (frameStart_spec P m).2
  have hU := (updateLayers_spec m.app.m_LayerStack.forward (Application.frameStart P m)).1
  unfold Application.RunBody
  simp only [hF]
  cases h2 : Application.updateLayers m.app.m_LayerStack.forward (Application.frameStart P m) with
  | threw m2 => exact Or.inl ⟨m2, rfl, rfl⟩
  | returned m2 =>
    rw [h2] at hU
    simp only [Outcome.val] at hU
    have hA : (m2.call P Call.ImGuiLayer_Begin).app.m_LayerStack = m.app.m_LayerStack := by
      simp [Machine.call, hU, hF]
    simp only [hA]
    cases h4 : Application.renderLayers m.app.m_LayerStack.forward
        (m2.call P Call.ImGuiLayer_Begin) with
    | threw m4 => exact Or.inr (Or.inl ⟨m2, m4, rfl, h4, rfl⟩)
    | returned m4 => exact Or.inr (Or.inr ⟨m2, m4, rfl, h4, rfl⟩)

/-- Log and application object after an update loop that returned. -/
theorem updateLayers_returned {σ : Type} (ls : List (Layer σ)) (m m2 : Machine σ)
    (h : Application.updateLayers ls m = .returned m2) :
    m2.app = m.app ∧ m2.log = m.log ++ ls.map (fun l => Call.Layer_OnUpdate l.name) := by
  obtain ⟨ha, n, -, hlog, hr, -⟩ := updateLayers_spec ls m
  rw [h] at ha hlog hr
  have hn := hr rfl
  subst hn
  simpa [Outcome.val] using And.intro ha hlog

/-- Log and application object after a debug-UI loop that returned. -/
theorem renderLayers_returned {σ : Type} (ls : List (Layer σ)) (m m4 : Machine σ)
    (h : Application.renderLayers ls m = .returned m4) :
    m4.app = m.app ∧ m4.log = m.log ++ ls.map (fun l => Call.Layer_OnImGuiRender l.name) := by
  obtain ⟨ha, n, -, hlog, hr, -⟩ := renderLayers_spec ls m
  rw [h] at ha hlog hr
  have hn := hr rfl
  subst hn
  simpa [Outcome.val] using And.intro ha hlog

/-- Log after a debug-UI loop left by an exception: a non-empty run of calls,
ending with the layer that threw. -/
theorem renderLayers_threw {σ : Type} (ls : List (Layer σ)) (m m4 : Machine σ)
    (h : Application.renderLayers ls m = .threw m4) :
    m4.app = m.app ∧ ∃ n, 1 ≤ n ∧ n ≤ ls.length ∧
      m4.log = m.log ++ (ls.take n).map (fun l => Call.Layer_OnImGuiRender l.name) := by
  obtain ⟨ha, n, hn, hlog, -, ht⟩ := renderLayers_spec ls m
  rw [h] at ha hlog ht
  exact ⟨ha, n, ht rfl, hn, hlog⟩

/-- Log of the window update: the call itself, then only layer `OnEvent` calls
made from the event callback. -/
theorem windowOnUpdate_spec {σ : Type} (P : Collaborators σ) (m : Machine σ) :
    (Application.windowOnUpdate P m).val.app.m_LayerStack = m.app.m_LayerStack ∧
      (∃ tail, (Application.windowOnUpdate P m).val.log =
          m.log ++ Call.Window_OnUpdate :: tail ∧
        ∀ c ∈ tail, ∃ name, c = Call.Layer_OnEvent name) ∧
      ((∀ s, ∀ e ∈ P.pollEvents s, e.GetEventType ≠ EventType.WindowClose) →
        (Application.windowOnUpdate P m).val.app.m_Running = m.app.m_Running) := by
  obtain ⟨hS, ⟨tail, hl, ht⟩, hR⟩ := deliver_spec (P.pollEvents m.world)
    (m.call P Call.Window_OnUpdate)
  unfold Application.windowOnUpdate
  exact ⟨hS, ⟨tail, by rw [hl]; simp [Machine.call], ht⟩, fun h => hR (h m.world)⟩

/-- Log of a pass through the loop body on which both layer loops returned. -/
theorem RunBody_log {σ : Type} (P : Collaborators σ) (m m2 m4 : Machine σ)
    (h2 : Application.updateLayers m.app.m_LayerStack.forward (Application.frameStart P m)
      = .returned m2)
    (h4 : Application.renderLayers m.app.m_LayerStack.forward (m2.call P Call.ImGuiLayer_Begin)
      = .returned m4) :
    ∃ tail, (Application.RunBody P m).val.log =
        m.log ++ frameStartCalls ++
          m.app.m_LayerStack.forward.map (fun l => Call.Layer_OnUpdate l.name) ++
          Call.ImGuiLayer_Begin ::
            (m.app.m_LayerStack.forward.map (fun l => Call.Layer_OnImGuiRender l.name) ++
              Call.ImGuiLayer_End :: Call.Window_OnUpdate :: tail) ∧
      ∀ c ∈ tail, ∃ name, c = Call.Layer_OnEvent name := by
  have hB : Application.RunBody P m =
      Application.windowOnUpdate P (m4.call P Call.ImGuiLayer_End) := by
    rcases RunBody_cases P m with ⟨x, hx, -⟩ | ⟨x, y, hx, hy, -⟩ | ⟨x, y, hx, hy, hz⟩
    · rw [h2] at hx; cases hx
    · rw [h2] at hx; cases hx; rw [h4] at hy; cases hy
    · rw [h2] at hx; cases hx; rw [h4] at hy; cases hy; exact hz
  obtain ⟨-, l2⟩ := updateLayers_returned _ _ _ h2
  obtain ⟨-, l4⟩ := renderLayers_returned _ _ _ h4
  obtain ⟨-, ⟨tail, hl, ht⟩, -⟩ := windowOnUpdate_spec P (m4.call P Call.ImGuiLayer_End)
  refine ⟨tail, ?_, ht⟩
  rw [hB, hl]
  simp [Machine.call, l4, l2, (frameStart_spec P m).1]

/-- A pass through the loop body that returned went through both layer loops. -/
theorem RunBody_returned {σ : Type} (P : Collaborators σ) (m m1 : Machine σ)
    (h : Application.RunBody P m = .returned m1) :
    ∃ m2 m4, Application.updateLayers m.app.m_LayerStack.forward (Application.frameStart P m)
          = .returned m2 ∧
        Application.renderLayers m.app.m_LayerStack.forward (m2.call P Call.ImGuiLayer_Begin)
          = .returned m4 := by
  rcases RunBody_cases P m with ⟨x, -, hz⟩ | ⟨x, y, -, -, hz⟩ | ⟨x, y, hx, hy, -⟩
  · rw [h] at hz; cases hz
  · rw [h] at hz; cases hz
  · exact ⟨x, y, hx, hy⟩

/-- One pass through the loop body keeps `m_Running` when the window pump
delivers no close event. -/
theorem RunBody_running {σ : Type} (P : Collaborators σ) (m : Machine σ)
    (h : ∀ s, ∀ e ∈ P.pollEvents s, e.GetEventType ≠ EventType.WindowClose) :
    (Application.RunBody P m).val.app.m_Running = m.app.m_Running := by
  have hF := (frameStart_spec P m).2
  rcases RunBody_cases P m with ⟨x, hx, hz⟩ | ⟨x, y, hx, hy, hz⟩ | ⟨x, y, hx, hy, hz⟩
  · have hU := (updateLayers_spec m.app.m_LayerStack.forward (Application.frameStart P m)).1
    rw [hx] at hU
    rw [hz]
    simp only [Outcome.val] at hU ⊢
    rw [hU, hF]
  · obtain ⟨a2, -⟩ := updateLayers_returned _ _ _ hx
    obtain ⟨a4, -⟩ := renderLayers_threw _ _ _ hy
    rw [hz]
    simp only [Outcome.val]
    rw [a4]
    simp [Machine.call, a2, hF]
  · obtain ⟨a2, -⟩ := updateLayers_returned _ _ _ hx
    obtain ⟨a4, -⟩ := renderLayers_returned _ _ _ hy
    rw [hz, (windowOnUpdate_spec P _).2.2 h]
    simp [Machine.call, a4, a2, hF]

/-! ## Claims about event routing -/

/-- C1: for every state of the application, whatever its layer stack and
whatever its layers do, a WindowClose event that arrives with `Handled` false
makes `OnEvent` return with `m_Running` false and `Handled` true; the layer
loop breaks before the first layer. -/
theorem C1_close_event_stops_loop_and_is_handled {σ : Type} (m : Machine σ) :
    Application.OnEvent { kind := EventKind.WindowClose, Handled := false } m =
        Outcome.returned ({ kind := EventKind.WindowClose, Handled := true },
          { m with app := { m.app with m_Running := false } }) ∧
      (Application.OnEvent { kind := EventKind.WindowClose, Handled := false }
        m).val.2.app.m_Running = false ∧
      (Application.OnEvent { kind := EventKind.WindowClose, Handled := false }
        m).val.1.Handled = true := by
  have h : Application.OnEvent { kind := EventKind.WindowClose, Handled := false } m =
      Outcome.returned ({ kind := EventKind.WindowClose, Handled := true },
        { m with app := { m.app with m_Running := false } }) := by
    unfold Application.OnEvent
    rw [coreDispatch_close]
    exact offerLayers_handled _ _ _ rfl
  exact ⟨h, by rw [h]; rfl, by rw [h]; rfl⟩

/-- C2: on a stack built by any sequence of pushes, `OnEvent` offers the event
in the order overlays last-pushed first, then regular layers last-pushed first,
and calls exactly the first `n` layers of that order, where every shorter run
leaves `Handled` false and, when `OnEvent` returns, either all layers were
called or the last one called left `Handled` true; when the core dispatch
already set `Handled`, no layer is called. -/
theorem C2_layers_offered_in_reverse_until_handled {σ : Type} (ops : List (PushOp σ))
    (running minimized : Bool) (w : σ) (log : List Call) (e : Event) :
    ∃ n, n ≤ ((overlayLayers ops).reverse ++ (regularLayers ops).reverse).length ∧
      (Application.OnEvent e
          ⟨(Application.fresh running minimized).pushAll ops, w, log⟩).val.2.log =
        log ++ (((overlayLayers ops).reverse ++ (regularLayers ops).reverse).take n).map
          (fun l => Call.Layer_OnEvent l.name) ∧
      ((Application.OnEvent e
            ⟨(Application.fresh running minimized).pushAll ops, w, log⟩).val.1.Handled,
          (Application.OnEvent e
            ⟨(Application.fresh running minimized).pushAll ops, w, log⟩).val.2.world) =
        offerUnconditionally e.kind
          (((overlayLayers ops).reverse ++ (regularLayers ops).reverse).take n)
          ((Application.coreDispatch e
            ⟨(Application.fresh running minimized).pushAll ops, w, log⟩).1.Handled, w) ∧
      (∀ k, k < n →
        (offerUnconditionally e.kind
          (((overlayLayers ops).reverse ++ (regularLayers ops).reverse).take k)
          ((Application.coreDispatch e
            ⟨(Application.fresh running minimized).pushAll ops, w, log⟩).1.Handled, w)).1
          = false) ∧
      ((Application.OnEvent e
          ⟨(Application.fresh running minimized).pushAll ops, w, log⟩).isReturned = true →
        n = ((overlayLayers ops).reverse ++ (regularLayers ops).reverse).length ∨
        (Application.OnEvent e
          ⟨(Application.fresh running minimized).pushAll ops, w, log⟩).val.1.Handled = true) ∧
      ((Application.coreDispatch e
          ⟨(Application.fresh running minimized).pushAll ops, w, log⟩).1.Handled = true →
        n = 0) := by
  obtain ⟨hS, hW, hL, hK⟩ := coreDispatch_frame e
    (⟨(Application.fresh running minimized).pushAll ops, w, log⟩ : Machine σ)
  have hB := backward_pushAll ops running minimized
  obtain ⟨n, hn, hlog, hst, -, hall, hend⟩ := offerLayers_shortest
    ((overlayLayers ops).reverse ++ (regularLayers ops).reverse)
    (Application.coreDispatch e
      (⟨(Application.fresh running minimized).pushAll ops, w, log⟩ : Machine σ)).1
    (Application.coreDispatch e
      (⟨(Application.fresh running minimized).pushAll ops, w, log⟩ : Machine σ)).2
  have hO : Application.OnEvent e
      (⟨(Application.fresh running minimized).pushAll ops, w, log⟩ : Machine σ) =
      Application.offerLayers ((overlayLayers ops).reverse ++ (regularLayers ops).reverse)
        (Application.coreDispatch e
          (⟨(Application.fresh running minimized).pushAll ops, w, log⟩ : Machine σ)).1
        (Application.coreDispatch e
          (⟨(Application.fresh running minimized).pushAll ops, w, log⟩ : Machine σ)).2 := by
    unfold Application.OnEvent
    simp only [hS, hB]
  rw [hK, hW] at hst hall
  rw [hL] at hlog
  refine ⟨n, hn, by rw [hO]; exact hlog, by rw [hO]; exact hst, hall, by rw [hO]; exact hend, ?_⟩
  intro hh
  by_contra hne
  have h0 := hall 0 (by omega)
  simp [offerUnconditionally, hh] at h0

/-- C2 at the scenario of the specification: regular layer A pushed first,
overlay B pushed second, both handling everything, and a resize to 800 by 600.
The run of layers called is B alone, so A is not called, and `Handled` ends
true. -/
theorem C2_witness_overlay_handles_resize :
    (∃ n, n ≤ [sampleLayer "B" true, sampleLayer "A" true].length ∧
      (Application.OnEvent { kind := EventKind.WindowResize 800 600, Handled := false }
          machineAB).val.2.log =
        [] ++ ([sampleLayer "B" true, sampleLayer "A" true].take n).map
          (fun l => Call.Layer_OnEvent l.name) ∧
      ((Application.OnEvent { kind := EventKind.WindowResize 800 600, Handled := false }
            machineAB).val.1.Handled,
          (Application.OnEvent { kind := EventKind.WindowResize 800 600, Handled := false }
            machineAB).val.2.world) =
        offerUnconditionally (EventKind.WindowResize 800 600)
          ([sampleLayer "B" true, sampleLayer "A" true].take n) (false, ()) ∧
      (∀ k, k < n →
        (offerUnconditionally (EventKind.WindowResize 800 600)
          ([sampleLayer "B" true, sampleLayer "A" true].take k) (false, ())).1 = false) ∧
      ((Application.OnEvent { kind := EventKind.WindowResize 800 600, Handled := false }
          machineAB).isReturned = true →
        n = [sampleLayer "B" true, sampleLayer "A" true].length ∨
        (Application.OnEvent { kind := EventKind.WindowResize 800 600, Handled := false }
          machineAB).val.1.Handled = true) ∧
      (false = true → n = 0)) ∧
    (Application.OnEvent { kind := EventKind.WindowResize 800 600, Handled := false }
      machineAB).val.2.log = [Call.Layer_OnEvent "B"] ∧
    Call.Layer_OnEvent "A" ∉
      (Application.OnEvent { kind := EventKind.WindowResize 800 600, Handled := false }
        machineAB).val.2.log ∧
    (Application.OnEvent { kind := EventKind.WindowResize 800 600, Handled := false }
      machineAB).val.1.Handled = true :=
  ⟨C2_layers_offered_in_reverse_until_handled scenarioAB true false () []
      { kind := EventKind.WindowResize 800 600, Handled := false },
    rfl, by decide, rfl⟩

/-- C3: for every resize event, whatever its width `w`, height `h` and incoming
flag, the core dispatch step leaves `m_Minimized` true exactly when `w` or `h`
is zero and leaves `Handled` false, so the layer loop starts with the flag
clear and calls the topmost layer of a non-empty stack.  In particular a resize
to 0 by 100 gives `m_Minimized` true and `Handled` false. -/
theorem C3_resize_core_dispatch_sets_minimized_not_handled {σ : Type} (w h : Nat) (hd : Bool)
    (m : Machine σ) :
    ((Application.coreDispatch { kind := EventKind.WindowResize w h, Handled := hd }
        m).2.app.m_Minimized = true ↔ (w = 0 ∨ h = 0)) ∧
      (Application.coreDispatch { kind := EventKind.WindowResize w h, Handled := hd }
        m).1.Handled = false ∧
      Application.OnEvent { kind := EventKind.WindowResize w h, Handled := hd } m =
        Application.offerLayers m.app.m_LayerStack.backward
          { kind := EventKind.WindowResize w h, Handled := false }
          { m with app := { m.app with m_Minimized := (w == 0 || h == 0) } } ∧
      (∀ l ls, m.app.m_LayerStack.backward = l :: ls →
        ∃ rest, (Application.OnEvent { kind := EventKind.WindowResize w h, Handled := hd }
          m).val.2.log = m.log ++ Call.Layer_OnEvent l.name :: rest) ∧
      ((Application.coreDispatch { kind := EventKind.WindowResize 0 100, Handled := false }
          m).2.app.m_Minimized = true ∧
        (Application.coreDispatch { kind := EventKind.WindowResize 0 100, Handled := false }
          m).1.Handled = false) := by
  have hO := OnEvent_resize w h hd m
  refine ⟨by rw [coreDispatch_resize]; simp, by rw [coreDispatch_resize], hO, ?_,
    by rw [coreDispatch_resize]; simp⟩
  intro l ls hls
  rw [hO, hls]
  exact offerLayers_first l ls _ _ rfl

/-- C3 on machine AB with a resize to 0 by 100: the application is minimized
and overlay B, the topmost layer, still receives the event. -/
theorem C3_witness_zero_width_reaches_overlay :
    ∃ rest, (Application.OnEvent { kind := EventKind.WindowResize 0 100, Handled := false }
      machineAB).val.2.log = machineAB.log ++ Call.Layer_OnEvent (sampleLayer "B" true).name :: rest :=
  (C3_resize_core_dispatch_sets_minimized_not_handled 0 100 false machineAB).2.2.2.1
    (sampleLayer "B" true) [sampleLayer "A" true] rfl

/-- C4 fails as stated: on a resize to 800 by 600 the handler issues no
`Renderer::OnWindowResize(800, 600)` call (line 196 is commented out); it
only clears `m_Minimized` and returns false. -/
theorem C4_counterexample_renderer_not_notified :
    ¬ (Call.Renderer_OnWindowResize 800 600 ∈
        (Application.OnWindowResize { kind := EventKind.WindowResize 800 600, Handled := false }
          bareMachine).2.log ∧
      (Application.OnWindowResize { kind := EventKind.WindowResize 800 600, Handled := false }
          bareMachine).2.app.m_Minimized = false ∧
      (Application.OnWindowResize { kind := EventKind.WindowResize 800 600, Handled := false }
          bareMachine).1 = false) := by
  decide

/-- C4 as amended: for every resize event with both dimensions non-zero,
`OnWindowResize` sets `m_Minimized` to false and returns false, and issues no
collaborator call at all: the log and the world are unchanged. -/
theorem C4_resize_handler_clears_minimized_without_calls {σ : Type} (w h : Nat) (hd : Bool)
    (m : Machine σ) (hw : w ≠ 0) (hh : h ≠ 0) :
    Application.OnWindowResize { kind := EventKind.WindowResize w h, Handled := hd } m =
        (false, { m with app := { m.app with m_Minimized := false } }) ∧
      (Application.OnWindowResize { kind := EventKind.WindowResize w h, Handled := hd }
        m).2.log = m.log ∧
      (Application.OnWindowResize { kind := EventKind.WindowResize w h, Handled := hd }
        m).2.world = m.world ∧
      (Application.OnEvent { kind := EventKind.WindowResize w h, Handled := hd }
        m).val.2.app.m_Minimized = false ∧
      (∀ c ∈ (Application.OnEvent { kind := EventKind.WindowResize w h, Handled := hd }
        m).val.2.log, c ∈ m.log ∨ ∃ name, c = Call.Layer_OnEvent name) := by
  have h1 : Application.OnWindowResize { kind := EventKind.WindowResize w h, Handled := hd } m =
      (false, { m with app := { m.app with m_Minimized := false } }) := by
    simp [Application.OnWindowResize, Event.GetWidth, Event.GetHeight, hw, hh]
  refine ⟨h1, by rw [h1], by rw [h1], ?_, ?_⟩
  · rw [OnEvent_resize, offerLayers_app]
    simp [hw, hh]
  · obtain ⟨n, -, hlog, -⟩ := offerLayers_shortest m.app.m_LayerStack.backward
      { kind := EventKind.WindowResize w h, Handled := false }
      { m with app := { m.app with m_Minimized := (w == 0 || h == 0) } }
    intro c hc
    rw [OnEvent_resize, hlog] at hc
    simp only [List.mem_append, List.mem_map] at hc
    rcases hc with hc | ⟨l, -, rfl⟩
    · exact Or.inl hc
    · exact Or.inr ⟨l.name, rfl⟩

/-- C4 as amended, at a resize to 800 by 600 on machine AB. -/
theorem C4_witness_resize_800_600 :
    800 ≠ 0 ∧ 600 ≠ 0 ∧
      Application.OnWindowResize { kind := EventKind.WindowResize 800 600, Handled := false }
          machineAB =
        (false, { machineAB with app := { machineAB.app with m_Minimized := false } }) ∧
      (Application.OnWindowResize { kind := EventKind.WindowResize 800 600, Handled := false }
        machineAB).2.log = machineAB.log :=
  ⟨by decide, by decide,
    (C4_resize_handler_clears_minimized_without_calls 800 600 false machineAB
      (by decide) (by decide)).1,
    (C4_resize_handler_clears_minimized_without_calls 800 600 false machineAB
      (by decide) (by decide)).2.1⟩

/-- C5: for every state, layer stack and event, `OnEvent` leaves `m_Running`
unchanged unless the event is a WindowClose and leaves `m_Minimized` unchanged
unless it is a WindowResize, because a `Dispatch` call whose type differs from
the event returns false and changes neither the event nor the state; hence a
pass through the loop body whose window pump delivers no close event keeps
`m_Running`. -/
theorem C5_flags_change_only_on_matching_event {σ : Type} (e : Event) (m : Machine σ) :
    (e.GetEventType ≠ EventType.WindowClose →
        (Application.OnEvent e m).val.2.app.m_Running = m.app.m_Running) ∧
      (e.GetEventType ≠ EventType.WindowResize →
        (Application.OnEvent e m).val.2.app.m_Minimized = m.app.m_Minimized) ∧
      (∀ (T : EventType) (func : Event → Machine σ → Bool × Machine σ),
        e.GetEventType ≠ T → Dispatch T func e m = (false, e, m)) ∧
      (∀ P : Collaborators σ,
        (∀ s, ∀ ev ∈ P.pollEvents s, ev.GetEventType ≠ EventType.WindowClose) →
        (Application.RunBody P m).val.app.m_Running = m.app.m_Running) := by
  obtain ⟨-, hR, hM⟩ := OnEvent_frame e m
  exact ⟨hR, hM, fun T func h => Dispatch_mismatch T func e m h,
    fun P h => RunBody_running P m h⟩

/-- C5 on machine AB: a key event changes neither flag, a resize dispatch
against a close event does nothing, and a frame pumping only key events keeps
the application running. -/
theorem C5_witness_key_event_keeps_flags :
    (Application.OnEvent { kind := EventKind.Other 7, Handled := false }
        machineAB).val.2.app.m_Running = machineAB.app.m_Running ∧
      (Application.OnEvent { kind := EventKind.Other 7, Handled := false }
        machineAB).val.2.app.m_Minimized = machineAB.app.m_Minimized ∧
      Dispatch EventType.WindowResize Application.OnWindowResize
          { kind := EventKind.WindowClose, Handled := false } machineAB =
        (false, { kind := EventKind.WindowClose, Handled := false }, machineAB) ∧
      (Application.RunBody keyCollaborators machineAB).val.app.m_Running
        = machineAB.app.m_Running :=
  ⟨(C5_flags_change_only_on_matching_event { kind := EventKind.Other 7, Handled := false }
      machineAB).1 (by decide),
    (C5_flags_change_only_on_matching_event { kind := EventKind.Other 7, Handled := false }
      machineAB).2.1 (by decide),
    (C5_flags_change_only_on_matching_event { kind := EventKind.WindowClose, Handled := false }
      machineAB).2.2.1 EventType.WindowResize Application.OnWindowResize (by decide),
    (C5_flags_change_only_on_matching_event { kind := EventKind.Other 7, Handled := false }
      machineAB).2.2.2 keyCollaborators (by
        intro s ev hev
        simp only [keyCollaborators, List.mem_singleton] at hev
        subst hev
        decide)⟩

/-- C6: the core dispatch runs whatever the incoming flag.  For every event
that arrives with `Handled` already true: a WindowClose still sets `m_Running`
to false, a WindowResize still sets `m_Minimized` from its dimensions, while
the layer loop honours the flag: an event of another kind, untouched by the
core dispatch, reaches no layer and changes nothing, and a close event reaches
no layer either. -/
theorem C6_core_dispatch_runs_on_handled_event {σ : Type} (m : Machine σ) (w h t : Nat) :
    Application.OnEvent { kind := EventKind.WindowClose, Handled := true } m =
        Outcome.returned ({ kind := EventKind.WindowClose, Handled := true },
          { m with app := { m.app with m_Running := false } }) ∧
      ((Application.coreDispatch { kind := EventKind.WindowResize w h, Handled := true }
        m).2.app.m_Minimized = true ↔ (w = 0 ∨ h = 0)) ∧
      ((Application.OnEvent { kind := EventKind.WindowResize w h, Handled := true }
        m).val.2.app.m_Minimized = true ↔ (w = 0 ∨ h = 0)) ∧
      Application.OnEvent { kind := EventKind.Other t, Handled := true } m =
        Outcome.returned ({ kind := EventKind.Other t, Handled := true }, m) := by
  refine ⟨?_, by rw [coreDispatch_resize]; simp, ?_, ?_⟩
  · unfold Application.OnEvent
    rw [coreDispatch_close]
    exact offerLayers_handled _ _ _ rfl
  · rw [OnEvent_resize, offerLayers_app]
    simp
  · unfold Application.OnEvent
    rw [coreDispatch_other]
    exact offerLayers_handled _ _ _ rfl

/-! ## Claims about the main loop -/

/-- C7: in every pass through the loop body of `Run` that runs to completion,
whatever the layer stack and the hooks, the calls logged by the pass contain
`Begin` exactly once and `End` exactly once, `Begin` before `End`, and the
`OnImGuiRender` calls, one per layer in forward order, are exactly the calls
between them. -/
theorem C7_begin_end_paired_once_per_frame {σ : Type} (P : Collaborators σ)
    (m m1 : Machine σ) (hret : Application.RunBody P m = Outcome.returned m1) :
    ∃ before after, m1.log = m.log ++ (before ++ Call.ImGuiLayer_Begin ::
        (m.app.m_LayerStack.forward.map (fun l => Call.Layer_OnImGuiRender l.name) ++
          Call.ImGuiLayer_End :: after)) ∧
      (∀ c ∈ before ++ after, c ≠ Call.ImGuiLayer_Begin ∧ c ≠ Call.ImGuiLayer_End ∧
        ∀ name, c ≠ Call.Layer_OnImGuiRender name) ∧
      (before ++ Call.ImGuiLayer_Begin ::
        (m.app.m_LayerStack.forward.map (fun l => Call.Layer_OnImGuiRender l.name) ++
          Call.ImGuiLayer_End :: after)).count Call.ImGuiLayer_Begin = 1 ∧
      (before ++ Call.ImGuiLayer_Begin ::
        (m.app.m_LayerStack.forward.map (fun l => Call.Layer_OnImGuiRender l.name) ++
          Call.ImGuiLayer_End :: after)).count Call.ImGuiLayer_End = 1 := by
  obtain ⟨m2, m4, h2, h4⟩ := RunBody_returned P m m1 hret
  obtain ⟨tail, hlog, htail⟩ := RunBody_log P m m2 m4 h2 h4
  rw [hret] at hlog
  simp only [Outcome.val] at hlog
  have hside : ∀ c ∈ (frameStartCalls ++
        m.app.m_LayerStack.forward.map (fun l => Call.Layer_OnUpdate l.name)) ++
        (Call.Window_OnUpdate :: tail),
      c ≠ Call.ImGuiLayer_Begin ∧ c ≠ Call.ImGuiLayer_End ∧
        ∀ name, c ≠ Call.Layer_OnImGuiRender name := by
    intro c hc
    simp only [List.mem_append, List.mem_map, List.mem_cons] at hc
    rcases hc with (hc | ⟨l, -, rfl⟩) | (rfl | hc)
    · simp only [frameStartCalls, List.mem_cons, List.not_mem_nil, or_false] at hc
      rcases hc with rfl | rfl | rfl | rfl | rfl | rfl | rfl | rfl <;> simp
    · exact ⟨by simp, by simp, by simp⟩
    · exact ⟨by simp, by simp, by simp⟩
    · obtain ⟨name, rfl⟩ := htail c hc
      exact ⟨by simp, by simp, by simp⟩
  have hrender : ∀ c ∈ m.app.m_LayerStack.forward.map (fun l => Call.Layer_OnImGuiRender l.name),
      c ≠ Call.ImGuiLayer_Begin ∧ c ≠ Call.ImGuiLayer_End := by
    intro c hc
    simp only [List.mem_map] at hc
    obtain ⟨l, -, rfl⟩ := hc
    exact ⟨by simp, by simp⟩
  have hcount : ∀ (x : Call) (xs : List Call), (∀ c ∈ xs, c ≠ x) → xs.count x = 0 := by
    intro x xs hx
    exact List.count_eq_zero.mpr (fun hmem => hx x hmem rfl)
  have hb1 := hcount Call.ImGuiLayer_Begin _ (fun c hc =>
    (hside c (List.mem_append_left _ hc)).1)
  have hb2 := hcount Call.ImGuiLayer_Begin _ (fun c hc =>
    (hside c (List.mem_append_right _ hc)).1)
  have hb3 := hcount Call.ImGuiLayer_Begin _ (fun c hc => (hrender c hc).1)
  have he1 := hcount Call.ImGuiLayer_End _ (fun c hc =>
    (hside c (List.mem_append_left _ hc)).2.1)
  have he2 := hcount Call.ImGuiLayer_End _ (fun c hc =>
    (hside c (List.mem_append_right _ hc)).2.1)
  have he3 := hcount Call.ImGuiLayer_End _ (fun c hc => (hrender c hc).2)
  refine ⟨frameStartCalls ++ m.app.m_LayerStack.forward.map (fun l => Call.Layer_OnUpdate l.name),
    Call.Window_OnUpdate :: tail, ?_, hside, ?_, ?_⟩
  · rw [hlog]; simp
  · rw [List.count_append, hb1, List.count_cons, List.count_append, hb3, List.count_cons,
      hb2]
    simp
  · rw [List.count_append, he1, List.count_cons, List.count_append, he3, List.count_cons,
      he2]
    simp

/-- C7 on machine AB with a window pump that delivers one key event: the pass
returns, and its log is the frame-start calls, the two updates, `Begin`, the
two debug-UI renders, `End`, the window update and the key event offered to
overlay B. -/
theorem C7_witness_frame_of_machineAB :
    Application.RunBody keyCollaborators machineAB =
        Outcome.returned (Application.RunBody keyCollaborators machineAB).val ∧
      (∃ before after, (Application.RunBody keyCollaborators machineAB).val.log =
          machineAB.log ++ (before ++ Call.ImGuiLayer_Begin ::
            (machineAB.app.m_LayerStack.forward.map (fun l => Call.Layer_OnImGuiRender l.name) ++
              Call.ImGuiLayer_End :: after)) ∧
        (∀ c ∈ before ++ after, c ≠ Call.ImGuiLayer_Begin ∧ c ≠ Call.ImGuiLayer_End ∧
          ∀ name, c ≠ Call.Layer_OnImGuiRender name) ∧
        (before ++ Call.ImGuiLayer_Begin ::
          (machineAB.app.m_LayerStack.forward.map (fun l => Call.Layer_OnImGuiRender l.name) ++
            Call.ImGuiLayer_End :: after)).count Call.ImGuiLayer_Begin = 1 ∧
        (before ++ Call.ImGuiLayer_Begin ::
          (machineAB.app.m_LayerStack.forward.map (fun l => Call.Layer_OnImGuiRender l.name) ++
            Call.ImGuiLayer_End :: after)).count Call.ImGuiLayer_End = 1) ∧
      (Application.RunBody keyCollaborators machineAB).val.log =
        frameStartCalls ++
          [Call.Layer_OnUpdate "A", Call.Layer_OnUpdate "B", Call.ImGuiLayer_Begin,
            Call.Layer_OnImGuiRender "A", Call.Layer_OnImGuiRender "B", Call.ImGuiLayer_End,
            Call.Window_OnUpdate, Call.Layer_OnEvent "B"] :=
  ⟨rfl,
    C7_begin_end_paired_once_per_frame keyCollaborators machineAB
      (Application.RunBody keyCollaborators machineAB).val rfl,
    rfl⟩

/-- C8 fails as stated: with a layer whose `OnImGuiRender` throws, the pass
through the loop body calls `Begin` and is left by the exception without any
call of `End`. -/
theorem C8_counterexample_throw_leaves_begin_unpaired :
    ¬ (Call.ImGuiLayer_Begin ∈ (Application.RunBody quietCollaborators machineThrowing).val.log →
      Call.ImGuiLayer_End ∈ (Application.RunBody quietCollaborators machineThrowing).val.log) := by
  decide

/-- C8 as amended: once the update loop has returned, so that `Begin` is
called, `End` follows exactly when every `OnImGuiRender` call of the pass
returns: then the log of the pass is the updates, `Begin`, all debug-UI
renders, `End` and the window update; when a layer throws, `Run` is left by
the exception right after that layer, the log of the pass ends with the
debug-UI renders made so far and contains no `End`. -/
theorem C8_end_follows_begin_iff_render_hooks_return {σ : Type} (P : Collaborators σ)
    (m m2 : Machine σ)
    (hU : Application.updateLayers m.app.m_LayerStack.forward (Application.frameStart P m)
      = Outcome.returned m2) :
    (∀ m4, Application.renderLayers m.app.m_LayerStack.forward
          (m2.call P Call.ImGuiLayer_Begin) = Outcome.returned m4 →
        ∃ tail, (Application.RunBody P m).val.log =
            m.log ++ frameStartCalls ++
              m.app.m_LayerStack.forward.map (fun l => Call.Layer_OnUpdate l.name) ++
              Call.ImGuiLayer_Begin ::
                (m.app.m_LayerStack.forward.map (fun l => Call.Layer_OnImGuiRender l.name) ++
                  Call.ImGuiLayer_End :: Call.Window_OnUpdate :: tail) ∧
          ∀ c ∈ tail, ∃ name, c = Call.Layer_OnEvent name) ∧
      (∀ m4, Application.renderLayers m.app.m_LayerStack.forward
          (m2.call P Call.ImGuiLayer_Begin) = Outcome.threw m4 →
        Application.RunBody P m = Outcome.threw m4 ∧
        ∃ n, 1 ≤ n ∧ n ≤ m.app.m_LayerStack.forward.length ∧
          m4.log = m.log ++ (frameStartCalls ++
            m.app.m_LayerStack.forward.map (fun l => Call.Layer_OnUpdate l.name) ++
            Call.ImGuiLayer_Begin ::
              (m.app.m_LayerStack.forward.take n).map
                (fun l => Call.Layer_OnImGuiRender l.name)) ∧
          Call.ImGuiLayer_End ∉ frameStartCalls ++
            m.app.m_LayerStack.forward.map (fun l => Call.Layer_OnUpdate l.name) ++
            Call.ImGuiLayer_Begin ::
              (m.app.m_LayerStack.forward.take n).map
                (fun l => Call.Layer_OnImGuiRender l.name)) := by
  constructor
  · intro m4 h4
    exact RunBody_log P m m2 m4 hU h4
  · intro m4 h4
    have hB : Application.RunBody P m = Outcome.threw m4 := by
      rcases RunBody_cases P m with ⟨x, hx, -⟩ | ⟨x, y, hx, hy, hz⟩ | ⟨x, y, hx, hy, -⟩
      · rw [hU] at hx; cases hx
      · rw [hU] at hx; cases hx; rw [h4] at hy; cases hy; exact hz
      · rw [hU] at hx; cases hx; rw [h4] at hy; cases hy
    obtain ⟨-, l2⟩ := updateLayers_returned _ _ _ hU
    obtain ⟨-, n, h1, hn, l4⟩ := renderLayers_threw _ _ _ h4
    refine ⟨hB, n, h1, hn, ?_, ?_⟩
    · rw [l4]
      simp [Machine.call, l2, (frameStart_spec P m).1]
    · simp only [frameStartCalls, List.mem_append, List.mem_cons, List.mem_map,
        List.not_mem_nil, or_false]
      rintro ((h | ⟨l, -, h⟩) | h | ⟨l, -, h⟩)
      · simp at h
      · cases h
      · cases h
      · cases h

/-- C8 as amended, on the machine whose regular layer T throws in
`OnImGuiRender`: the update loop returns, the debug-UI loop is left by the
exception after T, and the log of the pass stops there. -/
theorem C8_witness_throwing_layer :
    Application.updateLayers machineThrowing.app.m_LayerStack.forward
        (Application.frameStart quietCollaborators machineThrowing) =
      Outcome.returned (Application.updateLayers machineThrowing.app.m_LayerStack.forward
        (Application.frameStart quietCollaborators machineThrowing)).val ∧
      Application.RunBody quietCollaborators machineThrowing =
        Outcome.threw (Application.RunBody quietCollaborators machineThrowing).val ∧
      (Application.RunBody quietCollaborators machineThrowing).val.log =
        frameStartCalls ++ [Call.Layer_OnUpdate "T", Call.Layer_OnUpdate "B",
          Call.ImGuiLayer_Begin, Call.Layer_OnImGuiRender "T"] :=
  ⟨rfl,
    ((C8_end_follows_begin_iff_render_hooks_return quietCollaborators machineThrowing
      (Application.updateLayers machineThrowing.app.m_LayerStack.forward
        (Application.frameStart quietCollaborators machineThrowing)).val rfl).2
      (Application.RunBody quietCollaborators machineThrowing).val rfl).1,
    rfl⟩

/-- C10: on a stack built by any sequence of pushes, every pass through the
loop body that runs to completion logs, in this order: the frame-start calls,
`OnUpdate` on the regular layers in push order then the overlays in push
order, `Begin`, `OnImGuiRender` on the layers in the same order, `End`, and one
window update, after which come only the `OnEvent` calls made from the event
callback during that update.  The loop test guards the body: with `m_Running`
false `Run` returns at once with nothing logged, with `m_Running` true it
executes the body and tests again. -/
theorem C10_frame_steps_in_fixed_order {σ : Type} (ops : List (PushOp σ))
    (running minimized : Bool) (w : σ) (log : List Call) (P : Collaborators σ) :
    (∀ m1, Application.RunBody P ⟨(Application.fresh running minimized).pushAll ops, w, log⟩
          = Outcome.returned m1 →
        ∃ tail, m1.log = log ++ (frameStartCalls ++
            (regularLayers ops ++ overlayLayers ops).map (fun l => Call.Layer_OnUpdate l.name) ++
            Call.ImGuiLayer_Begin ::
              ((regularLayers ops ++ overlayLayers ops).map
                  (fun l => Call.Layer_OnImGuiRender l.name) ++
                Call.ImGuiLayer_End :: Call.Window_OnUpdate :: tail)) ∧
          (∀ c ∈ tail, ∃ name, c = Call.Layer_OnEvent name) ∧
          (frameStartCalls ++
            (regularLayers ops ++ overlayLayers ops).map (fun l => Call.Layer_OnUpdate l.name) ++
            Call.ImGuiLayer_Begin ::
              ((regularLayers ops ++ overlayLayers ops).map
                  (fun l => Call.Layer_OnImGuiRender l.name) ++
                Call.ImGuiLayer_End :: Call.Window_OnUpdate :: tail)).count
              Call.Window_OnUpdate = 1) ∧
      (∀ (m0 : Machine σ) (fuel : Nat), m0.app.m_Running = false →
        Application.Run P fuel m0 = some (Outcome.returned m0)) ∧
      (∀ (m0 : Machine σ) (fuel : Nat), m0.app.m_Running = true →
        Application.Run P (fuel + 1) m0 =
          match Application.RunBody P m0 with
          | .threw m1 => some (Outcome.threw m1)
          | .returned m1 => Application.Run P fuel m1) := by
  refine ⟨?_, ?_, ?_⟩
  · intro m1 hret
    obtain ⟨m2, m4, h2, h4⟩ := RunBody_returned P _ m1 hret
    obtain ⟨tail, hlog, htail⟩ := RunBody_log P _ m2 m4 h2 h4
    rw [hret] at hlog
    simp only [Outcome.val, forward_pushAll] at hlog
    refine ⟨tail, by rw [hlog]; simp, htail, ?_⟩
    have hcount : ∀ (xs : List Call), (∀ c ∈ xs, c ≠ Call.Window_OnUpdate) →
        xs.count Call.Window_OnUpdate = 0 := by
      intro xs hx
      exact List.count_eq_zero.mpr (fun hmem => hx _ hmem rfl)
    have c1 := hcount frameStartCalls (by
      intro c hc
      simp only [frameStartCalls, List.mem_cons, List.not_mem_nil, or_false] at hc
      rcases hc with rfl | rfl | rfl | rfl | rfl | rfl | rfl | rfl <;> simp)
    have c2 := hcount ((regularLayers ops ++ overlayLayers ops).map
      (fun l => Call.Layer_OnUpdate l.name)) (by
      intro c hc
      simp only [List.mem_map] at hc
      obtain ⟨l, -, rfl⟩ := hc
      simp)
    have c3 := hcount ((regularLayers ops ++ overlayLayers ops).map
      (fun l => Call.Layer_OnImGuiRender l.name)) (by
      intro c hc
      simp only [List.mem_map] at hc
      obtain ⟨l, -, rfl⟩ := hc
      simp)
    have c4 := hcount tail (by
      intro c hc
      obtain ⟨name, rfl⟩ := htail c hc
      simp)
    rw [List.count_append, List.count_append, c1, c2, List.count_cons, List.count_append, c3,
      List.count_cons, List.count_cons, c4]
    simp
  · intro m0 fuel h0
    cases fuel with
    | zero => simp [Application.Run, h0]
    | succ k => simp [Application.Run, h0]
  · intro m0 fuel h0
    simp [Application.Run, h0]

/-- C10 on machine AB with a window pump that delivers one key event: the pass
returns with the calls in the stated order, A before B in both layer loops. -/
theorem C10_witness_frame_of_machineAB :
    Application.RunBody keyCollaborators machineAB =
        Outcome.returned (Application.RunBody keyCollaborators machineAB).val ∧
      ∃ tail, (Application.RunBody keyCollaborators machineAB).val.log = [] ++ (frameStartCalls ++
          (regularLayers scenarioAB ++ overlayLayers scenarioAB).map
            (fun l => Call.Layer_OnUpdate l.name) ++
          Call.ImGuiLayer_Begin ::
            ((regularLayers scenarioAB ++ overlayLayers scenarioAB).map
                (fun l => Call.Layer_OnImGuiRender l.name) ++
              Call.ImGuiLayer_End :: Call.Window_OnUpdate :: tail)) ∧
        (∀ c ∈ tail, ∃ name, c = Call.Layer_OnEvent name) ∧
        (frameStartCalls ++
          (regularLayers scenarioAB ++ overlayLayers scenarioAB).map
            (fun l => Call.Layer_OnUpdate l.name) ++
          Call.ImGuiLayer_Begin ::
            ((regularLayers scenarioAB ++ overlayLayers scenarioAB).map
                (fun l => Call.Layer_OnImGuiRender l.name) ++
              Call.ImGuiLayer_End :: Call.Window_OnUpdate :: tail)).count
            Call.Window_OnUpdate = 1 :=
  ⟨rfl,
    (C10_frame_steps_in_fixed_order scenarioAB true false () [] keyCollaborators).1
      (Application.RunBody keyCollaborators machineAB).val rfl⟩

/-! ## Claim about construction -/

/-- With a reporting routine that returns to its caller, the guard of the
constructor does not stop a second construction: the registered instance is
replaced and a second window and debug overlay are created. -/
theorem construct_logAndReturn_proceeds {σ : Type} (self i : Nat) (imGuiLayer : Layer σ)
    (p : Process) (hi : p.s_Instance = some i) (ht : p.terminated = false) :
    (Application.construct logAndReturn self imGuiLayer p).1.s_Instance = some self ∧
      (Application.construct logAndReturn self imGuiLayer p).1.windows = p.windows + 1 ∧
      ((Application.construct logAndReturn self imGuiLayer p).2.map
        (fun a => a.m_LayerStack.m_Layers.map (fun l => l.name))) = some [imGuiLayer.name] := by
  simp [Application.construct, hi, logAndReturn, ht, Application.PushOverlay,
    LayerStack.PushOverlay, Application.fresh, LayerStack.empty]

/-- The first construction in a process registers the instance, creates the
window and pushes the debug overlay. -/
theorem construct_first {σ : Type} (report : String → Process → Process) (self : Nat)
    (imGuiLayer : Layer σ) (p : Process) (hi : p.s_Instance = none)
    (ht : p.terminated = false) :
    (Application.construct report self imGuiLayer p).1 =
        { p with s_Instance := some self, windows := p.windows + 1 } ∧
      ((Application.construct report self imGuiLayer p).2.map
        (fun a => a.m_LayerStack.m_Layers.map (fun l => l.name))) = some [imGuiLayer.name] := by
  simp [Application.construct, hi, ht, Application.PushOverlay,
    LayerStack.PushOverlay, Application.fresh, LayerStack.empty]

/-- C9: constructing an `Application` while an instance is registered is
fatal: the error is reported, the process is terminated before line 16, no
application object results, the registered instance stays registered, and no
further window or debug overlay is created. -/
theorem C9_second_construction_is_fatal {σ : Type} (self i : Nat) (imGuiLayer : Layer σ)
    (p : Process) (hi : p.s_Instance = some i) :
    (Application.construct PT_ERROR self imGuiLayer p).2 = none ∧
      (Application.construct PT_ERROR self imGuiLayer p).1.terminated = true ∧
      (Application.construct PT_ERROR self imGuiLayer p).1.reports =
        p.reports ++ ["Application already initialized"] ∧
      (Application.construct PT_ERROR self imGuiLayer p).1.s_Instance = some i ∧
      (Application.construct PT_ERROR self imGuiLayer p).1.windows = p.windows := by
  simp [Application.construct, hi, PT_ERROR]

/-- C9 in a process where instance 1 is registered: constructing instance 2
is reported and terminates the process with instance 1 still registered and
one window. -/
theorem C9_witness_second_instance :
    processWithInstance.s_Instance = some 1 ∧
      (Application.construct PT_ERROR 2 (sampleLayer "ImGuiLayer" false)
        processWithInstance).2.isNone = true ∧
      (Application.construct PT_ERROR 2 (sampleLayer "ImGuiLayer" false)
        processWithInstance).1 =
        { s_Instance := some 1, reports := ["Application already initialized"], windows := 1,
          terminated := true } :=
  ⟨rfl,
    by rw [(C9_second_construction_is_fatal 2 1 (sampleLayer "ImGuiLayer" false)
      processWithInstance rfl).1]; rfl,
    rfl⟩

end PT
